import Mathlib

/-!
Verification of the WHATWG Infra string primitives library.

The library is embedded shallowly: a Rust string slice is modelled as the
list of its Unicode scalar values (`List Char`), and byte-oriented
quantities of the Rust code (such as `str::len` and byte-indexed slicing)
are computed from the UTF-8 sizes of those scalar values.  Fallible
operations (Rust operations that can panic, such as byte-indexed slicing
at a position that is not a character boundary) are modelled with
`Option`, where `none` stands for a panic.
-/

namespace WhatwgInfra

/-- UTF-8 byte length of a string, matching Rust `str::len`. -/
def utf8Len (s : List Char) : Nat := (s.map Char.utf8Size).sum

/-! ## Classifiers (src/lib.rs lines 25-91) -/

/-- Embeds `is_noncharacter` from src/lib.rs lines 25-38: a range pattern
U+FDD0 through U+FDEF plus 34 listed codepoints, rendered as a boolean
disjunction of the range test and the 34 equalities. -/
def is_noncharacter (c : Char) : Bool :=
  (decide (Char.ofNat 0xFDD0 ≤ c) && decide (c ≤ Char.ofNat 0xFDEF))
  || c == Char.ofNat 0xFFFE || c == Char.ofNat 0xFFFF
  || c == Char.ofNat 0x1FFFE || c == Char.ofNat 0x1FFFF
  || c == Char.ofNat 0x2FFFE || c == Char.ofNat 0x2FFFF
  || c == Char.ofNat 0x3FFFE || c == Char.ofNat 0x3FFFF
  || c == Char.ofNat 0x4FFFE || c == Char.ofNat 0x4FFFF
  || c == Char.ofNat 0x5FFFE || c == Char.ofNat 0x5FFFF
  || c == Char.ofNat 0x6FFFE || c == Char.ofNat 0x6FFFF
  || c == Char.ofNat 0x7FFFE || c == Char.ofNat 0x7FFFF
  || c == Char.ofNat 0x8FFFE || c == Char.ofNat 0x8FFFF
  || c == Char.ofNat 0x9FFFE || c == Char.ofNat 0x9FFFF
  || c == Char.ofNat 0xAFFFE || c == Char.ofNat 0xAFFFF
  || c == Char.ofNat 0xBFFFE || c == Char.ofNat 0xBFFFF
  || c == Char.ofNat 0xCFFFE || c == Char.ofNat 0xCFFFF
  || c == Char.ofNat 0xDFFFE || c == Char.ofNat 0xDFFFF
  || c == Char.ofNat 0xEFFFE || c == Char.ofNat 0xEFFFF
  || c == Char.ofNat 0xFFFFE || c == Char.ofNat 0xFFFFF
  || c == Char.ofNat 0x10FFFE || c == Char.ofNat 0x10FFFF

/-- Embeds `is_c0_control` from src/lib.rs lines 64-66:
`*c <= '\u{001F}'`. -/
def is_c0_control (c : Char) : Bool := decide (c ≤ '\u001F')

/-! ## Rust standard-library predicates used by the examples and by
`trim_ascii_whitespace` -/

/-- Rust `char::is_ascii_whitespace`:
`matches!(*self, ' ' | '\t' | '\n' | '\x0C' | '\r')`. -/
def is_ascii_whitespace (c : Char) : Bool :=
  c == ' ' || c == '\t' || c == '\n' || c == '\x0C' || c == '\r'

/-- Rust `char::is_ascii_digit`: `matches!(*self, '0'..='9')`. -/
def is_ascii_digit (c : Char) : Bool :=
  decide ('0' ≤ c) && decide (c ≤ '9')

/-- Rust `char::is_ascii_alphabetic`:
`matches!(*self, 'A'..='Z' | 'a'..='z')`. -/
def is_ascii_alpha (c : Char) : Bool :=
  (decide ('A' ≤ c) && decide (c ≤ 'Z')) || (decide ('a' ≤ c) && decide (c ≤ 'z'))

/-! ## Line-ending normalizer (src/lib.rs lines 101-105) -/

/-- Embeds the first pass of `normalize_newlines`:
`s.replace("\u{000D}\u{000A}", "\u{000A}")`, the leftmost,
non-overlapping replacement of each CR LF pair by LF. -/
def replace_crlf : List Char → List Char
  | [] => []
  | [c] => [c]
  | a :: b :: rest =>
    if a = '\r' && b = '\n' then '\n' :: replace_crlf rest
    else a :: replace_crlf (b :: rest)

/-- Embeds the second pass of `normalize_newlines`:
`.replace('\u{000D}', "\u{000A}")`, replacing each remaining CR scalar
value by LF. -/
def replace_cr (s : List Char) : List Char :=
  s.map (fun c => if c = '\r' then '\n' else c)

/-- Embeds `normalize_newlines` from src/lib.rs lines 101-105: the CR LF
pass followed by the lone-CR pass. -/
def normalize_newlines (s : List Char) : List Char :=
  replace_cr (replace_crlf s)

/-! ## Newline stripper (src/lib.rs lines 115-131) -/

/-- Embeds `strip_newlines` from src/lib.rs lines 115-131: the loop pushes
each scalar value that is neither LF nor CR onto the result string.  The
`stripped_codepoints` counter and the `shrink_to` call of the source only
adjust the allocated capacity and have no observable effect on the
contents, so they are not modelled. -/
def strip_newlines (s : List Char) : List Char :=
  s.foldl (fun result c =>
    if c != '\u000A' && c != '\u000D' then result ++ [c] else result) []

/-! ## Whitespace trimmer (src/lib.rs lines 140-142) -/

/-- Embeds `trim_ascii_whitespace` from src/lib.rs lines 140-142:
`s.trim_matches(|c| c.is_ascii_whitespace())`, which removes the maximal
matching prefix and the maximal matching suffix. -/
def trim_ascii_whitespace (s : List Char) : List Char :=
  ((s.dropWhile is_ascii_whitespace).reverse.dropWhile
    is_ascii_whitespace).reverse

/-! ## Codepoint collector (src/lib.rs lines 151-177)

The Rust function mixes two units: the cursor is compared against the
UTF-8 byte length `s.len()` and used as a byte index in the slice
`&s[starting_position..*position]`, but it is advanced by one per
scalar value and used as a scalar count in `s.chars().skip(*position)`.
The embedding keeps both uses exactly as written; the byte slice is
fallible because Rust panics when a byte index is not a character
boundary. -/

/-- Maps a byte index of a string to the corresponding scalar-value index
when the byte index is a character boundary, and `none` otherwise.
Models the boundary check Rust performs when indexing `str` by bytes. -/
def boundaryCharIdx : List Char → Nat → Option Nat
  | _, 0 => some 0
  | [], _ + 1 => none
  | c :: cs, b + 1 =>
    if c.utf8Size ≤ b + 1 then
      (boundaryCharIdx cs (b + 1 - c.utf8Size)).map (· + 1)
    else none

/-- Embeds the Rust byte-indexed slice `&s[a..b]`: panics (`none`) unless
`a ≤ b`, `b` is within the string, and both `a` and `b` are character
boundaries; otherwise yields the scalar values between the two
boundaries. -/
def byteSlice (s : List Char) (a b : Nat) : Option (List Char) :=
  if a ≤ b ∧ b ≤ utf8Len s then
    match boundaryCharIdx s a, boundaryCharIdx s b with
    | some i, some j => some ((s.take j).drop i)
    | _, _ => none
  else none

/-- Embeds the `for c in rest` loop of `collect_codepoints`: for each
scalar value of the remaining input, the cursor is incremented while it
is below the byte length and the predicate holds on that scalar value. -/
def collectLoop (predicate : Char → Bool) (len : Nat) :
    List Char → Nat → Nat
  | [], pos => pos
  | c :: cs, pos =>
    if pos < len && predicate c then collectLoop predicate len cs (pos + 1)
    else pos

/-- Embeds `collect_codepoints` from src/lib.rs lines 151-177.  The
result pairs the collected string with the final cursor; `none` models a
panic of the byte-indexed slice `&s[starting_position..*position]`. -/
def collect_codepoints (s : List Char) (position : Nat)
    (predicate : Char → Bool) : Option (List Char × Nat) :=
  if s.isEmpty || position ≥ utf8Len s then some ([], position)
  else
    let rest := s.drop position
    let final := collectLoop predicate (utf8Len s) rest position
    (byteSlice s position final).map (fun sub => (sub, final))

/-! ## Helper lemmas -/

/-- Order on `Char` agrees with order on scalar values. -/
lemma char_le_iff (a b : Char) : a ≤ b ↔ a.toNat ≤ b.toNat := Iff.rfl

/-- Equality with `Char.ofNat k` at a valid scalar value `k` agrees with
equality of scalar values. -/
lemma char_eq_ofNat (c : Char) (k : Nat) (hk : (Char.ofNat k).toNat = k) :
    c = Char.ofNat k ↔ c.toNat = k := by
  constructor
  · intro h; rw [h]; exact hk
  · intro h
    apply Char.ext
    apply UInt32.ext_iff.mpr
    exact h.trans hk.symm

/-- C4: `is_c0_control` holds exactly on the inclusive scalar-value range
U+0000 through U+001F; in particular it rejects U+007F DELETE and
U+0020 SPACE and accepts U+0000 and U+001F. -/
theorem is_c0_control_spec :
    (∀ c : Char, is_c0_control c = true ↔ 0 ≤ c.toNat ∧ c.toNat ≤ 0x1F)
    ∧ is_c0_control (Char.ofNat 0x7F) = false
    ∧ is_c0_control (Char.ofNat 0x0) = true
    ∧ is_c0_control (Char.ofNat 0x1F) = true
    ∧ is_c0_control (Char.ofNat 0x20) = false := by
  refine ⟨fun c => ?_, by decide, by decide, by decide, by decide⟩
  simp only [is_c0_control, decide_eq_true_eq]
  rw [char_le_iff]
  exact ⟨fun h => ⟨Nat.zero_le _, h⟩, fun h => h.2⟩

/-- C5: `is_noncharacter` holds exactly on the inclusive scalar-value
range U+FDD0 through U+FDEF together with the 34 plane-boundary values
U+nFFFE and U+nFFFF for planes 0 through 16. -/
theorem is_noncharacter_spec :
    ∀ c : Char, is_noncharacter c = true ↔
      (0xFDD0 ≤ c.toNat ∧ c.toNat ≤ 0xFDEF)
      ∨ ∃ n, n ≤ 16 ∧
          (c.toNat = 0x10000 * n + 0xFFFE ∨ c.toNat = 0x10000 * n + 0xFFFF) := by
  intro c
  simp only [is_noncharacter, Bool.or_eq_true, Bool.and_eq_true,
    decide_eq_true_eq, beq_iff_eq, char_le_iff,
    char_eq_ofNat c 0xFFFE rfl, char_eq_ofNat c 0xFFFF rfl,
    char_eq_ofNat c 0x1FFFE rfl, char_eq_ofNat c 0x1FFFF rfl,
    char_eq_ofNat c 0x2FFFE rfl, char_eq_ofNat c 0x2FFFF rfl,
    char_eq_ofNat c 0x3FFFE rfl, char_eq_ofNat c 0x3FFFF rfl,
    char_eq_ofNat c 0x4FFFE rfl, char_eq_ofNat c 0x4FFFF rfl,
    char_eq_ofNat c 0x5FFFE rfl, char_eq_ofNat c 0x5FFFF rfl,
    char_eq_ofNat c 0x6FFFE rfl, char_eq_ofNat c 0x6FFFF rfl,
    char_eq_ofNat c 0x7FFFE rfl, char_eq_ofNat c 0x7FFFF rfl,
    char_eq_ofNat c 0x8FFFE rfl, char_eq_ofNat c 0x8FFFF rfl,
    char_eq_ofNat c 0x9FFFE rfl, char_eq_ofNat c 0x9FFFF rfl,
    char_eq_ofNat c 0xAFFFE rfl, char_eq_ofNat c 0xAFFFF rfl,
    char_eq_ofNat c 0xBFFFE rfl, char_eq_ofNat c 0xBFFFF rfl,
    char_eq_ofNat c 0xCFFFE rfl, char_eq_ofNat c 0xCFFFF rfl,
    char_eq_ofNat c 0xDFFFE rfl, char_eq_ofNat c 0xDFFFF rfl,
    char_eq_ofNat c 0xEFFFE rfl, char_eq_ofNat c 0xEFFFF rfl,
    char_eq_ofNat c 0xFFFFE rfl, char_eq_ofNat c 0xFFFFF rfl,
    char_eq_ofNat c 0x10FFFE rfl, char_eq_ofNat c 0x10FFFF rfl,
    show (Char.ofNat 0xFDD0).toNat = 0xFDD0 from rfl,
    show (Char.ofNat 0xFDEF).toNat = 0xFDEF from rfl]
  generalize c.toNat = v
  constructor
  · intro h
    by_cases hr : 0xFDD0 ≤ v ∧ v ≤ 0xFDEF
    · exact Or.inl hr
    · exact Or.inr ⟨v / 0x10000, by omega, by omega⟩
  · rintro (hr | ⟨n, hn, he⟩)
    · omega
    · interval_cases n <;> rcases he with he | he <;> omega

/-- C1: the totality guarantee fails.  On the one-character string
holding U+1F496 (a four-byte scalar value) with the cursor at 0 and a
predicate that always holds, the loop advances the cursor by one per
scalar value, so the final byte-indexed slice `&s[0..1]` falls inside
the four-byte encoding of U+1F496 and the Rust code panics; the
embedding accordingly yields `none`. -/
theorem collect_codepoints_panics_on_supplementary :
    collect_codepoints [Char.ofNat 0x1F496] 0 (fun _ => true) = none := by
  decide

/-- C2: collecting ASCII digits from "123abc" at cursor 0 yields "123"
with the cursor at 3, and a subsequent call at cursor 3 with the ASCII
alphabetic predicate yields "abc" with the cursor at 6, the end. -/
theorem collect_codepoints_chains :
    collect_codepoints "123abc".data 0 is_ascii_digit = some ("123".data, 3)
    ∧ collect_codepoints "123abc".data 3 is_ascii_alpha = some ("abc".data, 6) := by
  exact ⟨by decide, by decide⟩

/-- C3: when the string is empty or the cursor is at or beyond the end
of the string (the byte length, which is the measure the guard of the
source compares against), the result is the empty string and the cursor
is unchanged; in particular this holds for the empty string at cursor 0
with a predicate that always holds. -/
theorem collect_codepoints_degenerate :
    (∀ (s : List Char) (position : Nat) (predicate : Char → Bool),
      s = [] ∨ utf8Len s ≤ position →
      collect_codepoints s position predicate = some ([], position))
    ∧ collect_codepoints [] 0 (fun _ => true) = some ([], 0) := by
  constructor
  · intro s position predicate h
    unfold collect_codepoints
    rcases h with h | h
    · subst h
      simp
    · have hge : position ≥ utf8Len s := h
      simp [hge]
  · decide

/-- Witness for C3 at the concrete input "x", cursor 5, constant-true
predicate. -/
theorem collect_codepoints_degenerate_apply :
    collect_codepoints "x".data 5 (fun _ => true) = some ([], 5) :=
  collect_codepoints_degenerate.1 "x".data 5 (fun _ => true)
    (Or.inr (by decide))

/-- The CR LF pass never lengthens the string. -/
lemma replace_crlf_length (s : List Char) :
    (replace_crlf s).length ≤ s.length := by
  match s with
  | [] => simp [replace_crlf]
  | [c] => simp [replace_crlf]
  | a :: b :: rest =>
    rw [replace_crlf]
    by_cases h : a = '\r' && b = '\n'
    · rw [if_pos h]
      have := replace_crlf_length rest
      simp only [List.length_cons]
      omega
    · rw [if_neg h]
      have := replace_crlf_length (b :: rest)
      simp only [List.length_cons] at *
      omega
termination_by s.length

/-- C6: `normalize_newlines` is the CR LF collapsing pass followed by
the lone-CR pass, maps the example "a\r\nb\rc\nd" to "a\nb\nc\nd", and
never lengthens the string. -/
theorem normalize_newlines_spec :
    (∀ s, normalize_newlines s = replace_cr (replace_crlf s))
    ∧ normalize_newlines "a\r\nb\rc\nd".data = "a\nb\nc\nd".data
    ∧ ∀ s, (normalize_newlines s).length ≤ s.length := by
  refine ⟨fun s => rfl, by decide, fun s => ?_⟩
  unfold normalize_newlines replace_cr
  rw [List.length_map]
  exact replace_crlf_length s

/-- C10: the output of `normalize_newlines` contains no U+000D CARRIAGE
RETURN scalar value: the second pass maps every remaining CR to LF. -/
theorem normalize_newlines_no_cr (s : List Char) :
    (normalize_newlines s).all (fun c => c != '\u000D') = true := by
  unfold normalize_newlines replace_cr
  rw [List.all_eq_true]
  intro x hx
  rw [List.mem_map] at hx
  rcases hx with ⟨y, _, rfl⟩
  by_cases h : y = '\r' <;> simp [h]

/-- The loop of `strip_newlines` is a filter, for any accumulator. -/
lemma strip_newlines_foldl (s : List Char) (acc : List Char) :
    s.foldl (fun result c =>
        if c != '\u000A' && c != '\u000D' then result ++ [c] else result) acc
      = acc ++ s.filter (fun c => c != '\u000A' && c != '\u000D') := by
  induction s generalizing acc with
  | nil => simp
  | cons a t ih =>
    simp only [List.foldl_cons, List.filter_cons]
    by_cases h : (a != '\u000A' && a != '\u000D') = true
    · rw [if_pos h, if_pos h, ih, List.append_assoc]
      rfl
    · rw [if_neg h, if_neg h, ih]

/-- `strip_newlines` equals the filter keeping all scalar values other
than LF and CR. -/
lemma strip_newlines_eq_filter (s : List Char) :
    strip_newlines s = s.filter (fun c => c != '\u000A' && c != '\u000D') := by
  unfold strip_newlines
  rw [strip_newlines_foldl]
  rfl

/-- C7: `strip_newlines` is the order-preserving filter keeping every
scalar value except LF and CR; hence its output contains no LF or CR
and is never longer than the input. -/
theorem strip_newlines_spec (s : List Char) :
    strip_newlines s = s.filter (fun c => c != '\u000A' && c != '\u000D')
    ∧ (strip_newlines s).all (fun c => c != '\u000A' && c != '\u000D') = true
    ∧ (strip_newlines s).length ≤ s.length := by
  refine ⟨strip_newlines_eq_filter s, ?_, ?_⟩
  · rw [strip_newlines_eq_filter, List.all_eq_true]
    intro x hx
    have h2 := List.of_mem_filter hx
    exact h2
  · rw [strip_newlines_eq_filter]
    exact List.length_filter_le _ _

/-- C8: `strip_newlines` is idempotent. -/
theorem strip_newlines_idempotent (s : List Char) :
    strip_newlines (strip_newlines s) = strip_newlines s := by
  rw [strip_newlines_eq_filter, strip_newlines_eq_filter s,
    List.filter_filter]
  simp only [Bool.and_self]

/-- After dropping the matching prefix, the head (when present) does not
match. -/
lemma head_dropWhile_not (p : Char → Bool) (l : List Char) :
    ((l.dropWhile p).head?.all fun c => !p c) = true := by
  induction l with
  | nil => rfl
  | cons a t ih =>
    rw [List.dropWhile_cons]
    by_cases h : p a = true
    · rw [if_pos h]; exact ih
    · rw [if_neg h]
      have ha : p a = false := by
        cases hpa : p a
        · rfl
        · exact absurd hpa h
      simp [ha]

/-- A list whose head (when present) does not match is untouched by
`dropWhile`. -/
lemma dropWhile_head_false (p : Char → Bool) (l : List Char)
    (h : (l.head?.all fun c => !p c) = true) : l.dropWhile p = l := by
  cases l with
  | nil => rfl
  | cons a t =>
    rw [List.dropWhile_cons]
    simp only [List.head?_cons, Option.all_some] at h
    rw [if_neg]
    intro hpa
    rw [hpa] at h
    simp at h

/-- Dropping the leading whitespace of a string decomposes as the
trimmed string followed by its trailing whitespace. -/
lemma trim_decomp_right (s : List Char) :
    s.dropWhile is_ascii_whitespace
      = trim_ascii_whitespace s
        ++ ((s.dropWhile is_ascii_whitespace).reverse.takeWhile
            is_ascii_whitespace).reverse := by
  have h := List.takeWhile_append_dropWhile is_ascii_whitespace
      (s.dropWhile is_ascii_whitespace).reverse
  have h2 := congrArg List.reverse h
  rw [List.reverse_append, List.reverse_reverse] at h2
  unfold trim_ascii_whitespace
  exact h2.symm

/-- The trimmed string never starts with whitespace. -/
lemma trim_head_not_ws (s : List Char) :
    ((trim_ascii_whitespace s).head?.all
      fun c => !is_ascii_whitespace c) = true := by
  cases hcase : trim_ascii_whitespace s with
  | nil => rfl
  | cons a l =>
    have h1 := head_dropWhile_not is_ascii_whitespace s
    rw [trim_decomp_right s, hcase] at h1
    rw [hcase] at *
    simpa using h1

/-- The trimmed string never ends with whitespace. -/
lemma trim_getLast_not_ws (s : List Char) :
    ((trim_ascii_whitespace s).getLast?.all
      fun c => !is_ascii_whitespace c) = true := by
  unfold trim_ascii_whitespace
  rw [List.getLast?_reverse]
  exact head_dropWhile_not is_ascii_whitespace _

/-- C9: trimming removes a maximal all-whitespace prefix and a maximal
all-whitespace suffix: the input decomposes around the trimmed result
into whitespace-only ends, the trimmed result neither starts nor ends
with whitespace, trimming is idempotent, the example "  \t hi \n "
trims to "hi", and an all-whitespace string trims to the empty
string. -/
theorem trim_ascii_whitespace_spec :
    (∀ s : List Char, ∃ p q, s = p ++ trim_ascii_whitespace s ++ q
        ∧ p.all is_ascii_whitespace = true
        ∧ q.all is_ascii_whitespace = true)
    ∧ (∀ s : List Char,
        ((trim_ascii_whitespace s).head?.all
          fun c => !is_ascii_whitespace c) = true
        ∧ ((trim_ascii_whitespace s).getLast?.all
          fun c => !is_ascii_whitespace c) = true)
    ∧ (∀ s : List Char,
        trim_ascii_whitespace (trim_ascii_whitespace s)
          = trim_ascii_whitespace s)
    ∧ trim_ascii_whitespace "  \t hi \n ".data = "hi".data
    ∧ (∀ s : List Char, s.all is_ascii_whitespace = true →
        trim_ascii_whitespace s = []) := by
  refine ⟨fun s => ?_, fun s => ⟨trim_head_not_ws s, trim_getLast_not_ws s⟩,
    fun s => ?_, by decide, fun s h => ?_⟩
  · refine ⟨s.takeWhile is_ascii_whitespace,
      ((s.dropWhile is_ascii_whitespace).reverse.takeWhile
        is_ascii_whitespace).reverse, ?_, ?_, ?_⟩
    · rw [List.append_assoc, ← trim_decomp_right s,
        List.takeWhile_append_dropWhile]
    · rw [List.all_eq_true]
      intro x hx
      exact List.mem_takeWhile_imp hx
    · rw [List.all_eq_true]
      intro x hx
      rw [List.mem_reverse] at hx
      exact List.mem_takeWhile_imp hx
  · have h1 : (trim_ascii_whitespace s).dropWhile is_ascii_whitespace
        = trim_ascii_whitespace s :=
      dropWhile_head_false _ _ (trim_head_not_ws s)
    show ((((trim_ascii_whitespace s).dropWhile
        is_ascii_whitespace).reverse.dropWhile
        is_ascii_whitespace).reverse = trim_ascii_whitespace s)
    rw [h1]
    have h2 : (trim_ascii_whitespace s).reverse.dropWhile
        is_ascii_whitespace = (trim_ascii_whitespace s).reverse := by
      apply dropWhile_head_false
      rw [List.head?_reverse]
      exact trim_getLast_not_ws s
    rw [h2, List.reverse_reverse]
  · have hd : s.dropWhile is_ascii_whitespace = [] := by
      rw [List.dropWhile_eq_nil_iff]
      rw [List.all_eq_true] at h
      exact h
    unfold trim_ascii_whitespace
    rw [hd]
    rfl

/-- Witness for C9 at the concrete all-whitespace input " \t". -/
theorem trim_ascii_whitespace_spec_apply :
    trim_ascii_whitespace " \t".data = [] :=
  trim_ascii_whitespace_spec.2.2.2.2 " \t".data (by decide)

end WhatwgInfra
